import Mathlib

/-!
Shallow embedding of `tidyBot.py`: the configuration store, the extension
classifier, the collision-free name resolver and the organize engine
(`sorter`). Filesystem state is explicit: the config file's content, the
backup file, the downloads directory's immediate subdirectories and
regular files, and the files inside category subfolders. Log calls are
modelled as events.
-/

namespace TidyBot

/-- Lowercasing of one character as Python `str.lower` acts on the ASCII range. -/
def pyLowerChar (c : Char) : Char :=
  if 'A' ≤ c ∧ c ≤ 'Z' then Char.ofNat (c.toNat + 32) else c

/-- Lowercasing of a string, modelling Python `str.lower` on ASCII data. -/
def pyLower (s : String) : String :=
  ⟨s.data.map pyLowerChar⟩

/-- Index of the last dot in a list of characters, as `str.rfind` yields it. -/
def lastDotIdx (cs : List Char) : Option Nat :=
  ((List.range cs.length).filter (fun i => cs.getD i ' ' == '.')).getLast?

/-- Python `pathlib` suffix of a file name: the part from the last dot on,
empty when the dot is leading, trailing or absent. -/
def pySuffix (name : String) : String :=
  match lastDotIdx name.data with
  | some i => if 0 < i ∧ i + 1 < name.data.length then ⟨name.data.drop i⟩ else ""
  | none => ""

/-- Python `pathlib` stem of a file name: the part before the last dot,
or the whole name when the dot is leading, trailing or absent. -/
def pyStem (name : String) : String :=
  match lastDotIdx name.data with
  | some i => if 0 < i ∧ i + 1 < name.data.length then ⟨name.data.take i⟩ else name
  | none => name

/-- Candidate name built by the collision loop of `get_available_name`
(line 191): stem, a space, the counter in parentheses, then the suffix. -/
def candidate (stem sfx : String) (counter : Nat) : String :=
  stem ++ " (" ++ Nat.repr counter ++ ")" ++ sfx

/-- Body of the while-loop of `get_available_name` (lines 189-195) with
explicit fuel; `listing` holds the names that exist in the destination's
parent directory, so path existence is membership in it. -/
def findAvail (listing : List String) (stem sfx : String) : Nat → Nat → Option String
  | _, 0 => none
  | counter, fuel + 1 =>
    let newName := candidate stem sfx counter
    if newName ∈ listing then findAvail listing stem sfx (counter + 1) fuel
    else some newName

/-- `get_available_name` (lines 180-195): return the desired name unchanged
when no entry of that name exists, otherwise run the counter loop. Fuel one
more than the listing's length always suffices, as proved below. -/
def get_available_name (listing : List String) (name : String) : Option String :=
  if name ∈ listing then
    findAvail listing (pyStem name) (pySuffix name) 1 (listing.length + 1)
  else some name

/-- Python dict key lookup on an association list kept in insertion order. -/
def lookupCat (cats : List (String × List String)) (k : String) : Option (List String) :=
  (cats.find? (fun p => p.1 == k)).map (fun p => p.2)

/-- Extension classification chain of `sorter` (lines 238-247). A missing
dictionary key raises `KeyError`, modelled as an error naming the key; the
chain short-circuits, so a later key is not consulted once an earlier set
contains the extension. The name Others is never looked up: it is only the
fallback folder name. -/
def classify (cats : List (String × List String)) (ext : String) : Except String String :=
  match lookupCat cats "Archives" with
  | none => .error "Archives"
  | some ar =>
    if ext ∈ ar then .ok "Archives"
    else match lookupCat cats "Documents" with
    | none => .error "Documents"
    | some docs =>
      if ext ∈ docs then .ok "Documents"
      else match lookupCat cats "Graphics" with
      | none => .error "Graphics"
      | some gr =>
        if ext ∈ gr then .ok "Graphics"
        else match lookupCat cats "Programs" with
        | none => .error "Programs"
        | some pr =>
          if ext ∈ pr then .ok "Programs"
          else .ok "Others"

def archivesExts : List String :=
  [".zip", ".rar", ".7z", ".tar", ".gz", ".bz2", ".xz", ".iso", ".dmg", ".pkg"]

def documentsExts : List String :=
  [".pdf", ".doc", ".docx", ".txt", ".rtf", ".odt", ".xls", ".xlsx", ".ppt",
   ".pptx", ".csv", ".md", ".epub", ".mobi"]

def graphicsExts : List String :=
  [".jpg", ".jpeg", ".png", ".gif", ".bmp", ".svg", ".webp", ".tiff", ".psd",
   ".raw", ".ico", ".heic", ".mp4", ".mov", ".avi", ".mkv", ".wmv", ".flv",
   ".webm", ".m4v", ".mp3", ".wav", ".flac", ".aac", ".ogg", ".wma", ".m4a",
   ".aiff", ".mid", ".midi"]

def programsExts : List String :=
  [".exe", ".msi", ".deb", ".rpm", ".appimage", ".bat", ".sh", ".cmd", ".apk",
   ".dmg", ".pkg"]

/-- Configuration as stored in `config.json`. -/
structure StoredConfig where
  initialized : Bool
  downloads_path : String
  file_categories : List (String × List String)
deriving DecidableEq, Repr

/-- `create_default_config` (lines 52-134). The source sets `initialized`
to `True` in the default table (line 55), and the key Others sits between
Graphics and Programs in insertion order (line 118). -/
def create_default_config : StoredConfig where
  initialized := true
  downloads_path := "~/Downloads"
  file_categories :=
    [("Archives", archivesExts), ("Documents", documentsExts),
     ("Graphics", graphicsExts), ("Others", []), ("Programs", programsExts)]

/-- `Path.expanduser`: a leading tilde is replaced by the home directory. -/
def expanduser (p : String) : String :=
  match p.data with
  | '~' :: rest => "/home/user" ++ ⟨rest⟩
  | _ => p

/-- In-memory configuration after loading: `downloads_path` already expanded. -/
structure RunConfig where
  initialized : Bool
  downloads_path : String
  file_categories : List (String × List String)
deriving DecidableEq, Repr

def defaultRunConfig : RunConfig where
  initialized := create_default_config.initialized
  downloads_path := expanduser create_default_config.downloads_path
  file_categories := create_default_config.file_categories

/-- Content of a file in the application-data directory: a config that
parses into the expected shape, bytes that are not valid JSON, or the
invalid prefix left behind by an interrupted `json.dump`. -/
inductive ConfigFileContent where
  | valid (c : StoredConfig)
  | corrupt
  | truncated
deriving DecidableEq, Repr

/-- Explicit filesystem state: the config and backup files, whether the
downloads directory exists, its immediate subdirectories and top-level
regular files, and the files inside subdirectories as pairs of
subdirectory name and file name. -/
structure AppState where
  configFile : Option ConfigFileContent
  backupFile : Option ConfigFileContent
  downloadsDirExists : Bool
  dirs : List String
  files : List String
  subfiles : List (String × String)
deriving DecidableEq, Repr

/-- Logger calls of the source, as events. -/
inductive LogEvent where
  | noConfigFound
  | configCorrupted
  | backupSaved
  | backupFailed
  | newDefaultConfigCreated
  | unexpectedLoadError
  | exitCouldNotLoad
  | downloadsPathMissing
  | firstRunDetected
  | dryWouldCreateFolder (name : String)
  | createdFolder (name : String)
  | configSavedInitialized
  | dryWouldSetInitialized
  | dryMove (item : String) (target : String)
  | dryMoveAs (item : String) (target : String) (finalName : String)
  | moved (item : String) (target : String)
  | movedRenamed (item : String) (target : String) (finalName : String)
  | moveError (item : String)
deriving DecidableEq, Repr

/-- Branch of `load_config` for an unparseable config file (lines 154-172).
The backup copy can fail, which is only logged. The repair then rebuilds the
default dict, replaces its `downloads_path` with a `Path` object (line 168),
opens the config file for writing (truncating it) and hands the dict to
`json.dump`, which raises `TypeError` on the non-serializable `Path` value
after the already-encoded prefix was written; the exception lands in the
outer handler (lines 174-178), which logs it and returns the in-memory
default. The config file is left holding an invalid prefix, not a fresh
default, and the log line of line 171 is never reached. -/
def loadCorruptBranch (st : AppState) (backupFails : Bool) (content : ConfigFileContent) :
    Option RunConfig × AppState × List LogEvent :=
  let st1 := if backupFails then st else { st with backupFile := some content }
  let logs1 := [LogEvent.configCorrupted] ++
    (if backupFails then [LogEvent.backupFailed] else [LogEvent.backupSaved])
  let st2 := { st1 with configFile := some ConfigFileContent.truncated }
  (some defaultRunConfig, st2, logs1 ++ [LogEvent.unexpectedLoadError])

/-- `load_config` (lines 136-178). Every return site yields `some` config;
`none` would correspond to the Python function returning `None`, which no
path does. A missing file yields the default without writing it (lines
141-145); a file that parses yields its content with the path expanded
(lines 148-152); an unparseable file takes the repair branch. -/
def load_config (st : AppState) (backupFails : Bool) :
    Option RunConfig × AppState × List LogEvent :=
  match st.configFile with
  | none => (some defaultRunConfig, st, [LogEvent.noConfigFound])
  | some (ConfigFileContent.valid c) =>
    (some { initialized := c.initialized
            downloads_path := expanduser c.downloads_path
            file_categories := c.file_categories }, st, [])
  | some ConfigFileContent.corrupt => loadCorruptBranch st backupFails ConfigFileContent.corrupt
  | some ConfigFileContent.truncated => loadCorruptBranch st backupFails ConfigFileContent.truncated

/-- Names currently present in one category subdirectory. -/
def dirListing (st : AppState) (d : String) : List String :=
  st.subfiles.filterMap (fun p => if p.1 = d then some p.2 else none)

/-- `mkdir(exist_ok=True)` for each category name in order. -/
def addDirs (dirs : List String) (names : List String) : List String :=
  names.foldl (fun ds n => if n ∈ ds then ds else ds ++ [n]) dirs

/-- First-run folder creation and config persistence (lines 211-232): create
every configured category folder (log only under dry run), set the in-memory
flag, and persist the config with the expanded path stringified (lines
224-227) only on a non-dry run. -/
def firstRun (st : AppState) (config : RunConfig) (dry : Bool) :
    AppState × RunConfig × List LogEvent :=
  let names := config.file_categories.map (fun p => p.1)
  let folderLogs := names.map (fun n =>
    if dry then LogEvent.dryWouldCreateFolder n else LogEvent.createdFolder n)
  let st1 := if dry then st else { st with dirs := addDirs st.dirs names }
  let config1 := { config with initialized := true }
  if dry then
    (st1, config1, [LogEvent.firstRunDetected] ++ folderLogs ++ [LogEvent.dryWouldSetInitialized])
  else
    let stored : StoredConfig :=
      { initialized := true
        downloads_path := config1.downloads_path
        file_categories := config1.file_categories }
    ({ st1 with configFile := some (ConfigFileContent.valid stored) }, config1,
     [LogEvent.firstRunDetected] ++ folderLogs ++ [LogEvent.configSavedInitialized])

/-- Classification as the loop applies it (line 236): the file's extension
is lowercased before the category lookup. -/
def classifyFile (cats : List (String × List String)) (ext : String) : Except String String :=
  classify cats (pyLower ext)

/-- Handling of one regular file in the sorter loop (lines 234-265):
classify by the lowercased extension, resolve the destination name against
the target folder's current content, then log only (dry run, lines 252-256)
or move (lines 257-265). `shutil.move` raises when the category folder does
not exist or when the environment makes this particular move fail, and the
handler logs the error and continues. A `KeyError` from the classification
chain is not caught here and aborts the iteration. -/
def processFile (cats : List (String × List String)) (dry : Bool) (moveFails : List String)
    (st : AppState) (item : String) : Except String (AppState × List LogEvent) :=
  (classifyFile cats (pySuffix item)).map (fun catName =>
    let listing := if catName ∈ st.dirs then dirListing st catName else []
    let finalName := (get_available_name listing item).getD item
    if dry then
      if finalName = item then (st, [LogEvent.dryMove item catName])
      else (st, [LogEvent.dryMoveAs item catName finalName])
    else
      if item ∈ moveFails ∨ catName ∉ st.dirs then (st, [LogEvent.moveError item])
      else
        ({ st with files := st.files.erase item
                   subfiles := st.subfiles ++ [(catName, finalName)] },
         if finalName = item then [LogEvent.moved item catName]
         else [LogEvent.movedRenamed item catName finalName]))

/-- Iteration of the sorter over the top-level regular files. The third
component carries the key of an uncaught `KeyError` when classification hit
a missing category key, which stops the loop. -/
def runFiles (cats : List (String × List String)) (dry : Bool) (moveFails : List String) :
    AppState → List String → AppState × List LogEvent × Option String
  | st, [] => (st, [], none)
  | st, item :: rest =>
    match processFile cats dry moveFails st item with
    | Except.error k => (st, [], some k)
    | Except.ok (st1, evs) =>
      let r := runFiles cats dry moveFails st1 rest
      (r.1, evs ++ r.2.1, r.2.2)

/-- `sorter` (lines 197-265): load the config, abort when it is `None` or
when the downloads path does not exist, take the first-run branch when the
loaded config's `initialized` flag is unset, then iterate over the top-level
regular files. The third component is the key of an uncaught `KeyError`, if
any. -/
def sorter (st : AppState) (backupFails : Bool) (moveFails : List String) (dry : Bool) :
    AppState × List LogEvent × Option String :=
  let l := load_config st backupFails
  match l.1 with
  | none => (l.2.1, l.2.2 ++ [LogEvent.exitCouldNotLoad], none)
  | some config =>
    let st0 := l.2.1
    let logs0 := l.2.2
    if st0.downloadsDirExists = false then
      (st0, logs0 ++ [LogEvent.downloadsPathMissing], none)
    else
      let f :=
        if config.initialized = false then firstRun st0 config dry
        else (st0, config, [])
      let r := runFiles f.2.1.file_categories dry moveFails f.1 f.1.files
      (r.1, logs0 ++ f.2.2 ++ r.2.1, r.2.2)

instance instDecEqExceptString : DecidableEq (Except String String) := fun a b =>
  match a, b with
  | Except.error x, Except.error y => decidable_of_iff (x = y) (by simp)
  | Except.error _, Except.ok _ => isFalse (by simp)
  | Except.ok _, Except.error _ => isFalse (by simp)
  | Except.ok x, Except.ok y => decidable_of_iff (x = y) (by simp)

/-- Classification as the spec words it: the fixed priority order Archives,
Documents, Graphics, Programs, the first category whose extension set
contains the extension winning, the fallback Others when none match. -/
def classifySpec (ar docs gr pr : List String) (ext : String) : String :=
  if ext ∈ ar then "Archives"
  else if ext ∈ docs then "Documents"
  else if ext ∈ gr then "Graphics"
  else if ext ∈ pr then "Programs"
  else "Others"

/-- File name a move-phase log event is about, if any. -/
def eventItem : LogEvent → Option String
  | LogEvent.dryMove i _ => some i
  | LogEvent.dryMoveAs i _ _ => some i
  | LogEvent.moved i _ => some i
  | LogEvent.movedRenamed i _ _ => some i
  | LogEvent.moveError i => some i
  | _ => none

/-- Events that report a mutation of the filesystem or of the persisted
configuration, as opposed to pure log lines. -/
def mutatingEvent : LogEvent → Bool
  | LogEvent.createdFolder _ => true
  | LogEvent.configSavedInitialized => true
  | LogEvent.moved _ _ => true
  | LogEvent.movedRenamed _ _ _ => true
  | LogEvent.backupSaved => true
  | LogEvent.newDefaultConfigCreated => true
  | _ => false

/-- Fresh installation: no config file, no backup, the downloads directory
exists and is empty. -/
def stFresh : AppState where
  configFile := none
  backupFile := none
  downloadsDirExists := true
  dirs := []
  files := []
  subfiles := []

/-- State whose config file holds bytes that are not valid JSON. -/
def stCorrupt : AppState where
  configFile := some ConfigFileContent.corrupt
  backupFile := none
  downloadsDirExists := true
  dirs := []
  files := []
  subfiles := []

/-- Stored configuration with the five standard categories plus an extra
one, not yet initialized. -/
def storedExtra : StoredConfig where
  initialized := false
  downloads_path := "/dl"
  file_categories :=
    [("Archives", [".zip"]), ("Documents", [".pdf"]), ("Graphics", [".jpg"]),
     ("Others", []), ("Programs", [".exe"]), ("Music", [".mp3"])]

/-- State holding `storedExtra` on disk, with two top-level files. -/
def stExtra : AppState where
  configFile := some (ConfigFileContent.valid storedExtra)
  backupFile := none
  downloadsDirExists := true
  dirs := []
  files := ["a.zip", "b.pdf"]
  subfiles := []

/-- State with the five standard category folders already present, the
default configuration on disk, and two top-level files. -/
def stDirs : AppState where
  configFile := some (ConfigFileContent.valid create_default_config)
  backupFile := none
  downloadsDirExists := true
  dirs := ["Archives", "Documents", "Graphics", "Others", "Programs"]
  files := ["a.zip", "b.pdf"]
  subfiles := []

/-- Category table missing the Others key. -/
def catsNoOthers : List (String × List String) :=
  [("Archives", archivesExts), ("Documents", documentsExts),
   ("Graphics", graphicsExts), ("Programs", programsExts)]

/-- Category table missing the Archives key. -/
def catsNoArchives : List (String × List String) :=
  [("Documents", documentsExts), ("Graphics", graphicsExts),
   ("Others", []), ("Programs", programsExts)]

/-!
Decimal rendering of the rename counter. The source interpolates the
counter into the candidate name; distinct counters give distinct digit
strings, which the collision-loop proofs below rely on. The next
definitions and lemmas establish that `Nat.repr` is injective.
-/

/-- Most-significant-first decimal digit characters of a number, the list
that `Nat.toDigitsCore` builds on its stack. -/
def natDigitsM (n : Nat) : List Char :=
  if _h : n < 10 then [Nat.digitChar n]
  else natDigitsM (n / 10) ++ [Nat.digitChar (n % 10)]
decreasing_by exact Nat.div_lt_self (by omega) (by omega)

theorem natDigitsM_lt {n : Nat} (h : n < 10) : natDigitsM n = [Nat.digitChar n] := by
  rw [natDigitsM]
  simp [h]

theorem natDigitsM_ge {n : Nat} (h : ¬ n < 10) :
    natDigitsM n = natDigitsM (n / 10) ++ [Nat.digitChar (n % 10)] := by
  rw [natDigitsM]
  simp [h]

theorem natDigitsM_ne_nil (n : Nat) : natDigitsM n ≠ [] := by
  by_cases h : n < 10
  · rw [natDigitsM_lt h]
    simp
  · rw [natDigitsM_ge h]
    simp

theorem toDigitsCore_eq_natDigitsM (n : Nat) : ∀ (fuel : Nat) (ds : List Char), n < fuel →
    Nat.toDigitsCore 10 fuel n ds = natDigitsM n ++ ds := by
  induction n using Nat.strong_induction_on with
  | _ n ih =>
    intro fuel ds hf
    match fuel, hf with
    | fuel + 1, _ =>
      by_cases h10 : n < 10
      · have hz : n / 10 = 0 := Nat.div_eq_of_lt h10
        have hm : n % 10 = n := Nat.mod_eq_of_lt h10
        simp [Nat.toDigitsCore, hz, hm, natDigitsM_lt h10]
      · have hz : ¬ n / 10 = 0 := by
          intro h
          omega
        have hlt : n / 10 < n := Nat.div_lt_self (by omega) (by omega)
        have hfuel : n / 10 < fuel := by omega
        simp only [Nat.toDigitsCore, if_neg hz]
        rw [ih (n / 10) hlt fuel (Nat.digitChar (n % 10) :: ds) hfuel,
          natDigitsM_ge h10, List.append_assoc]
        rfl

theorem digitChar_inj_lt10 : ∀ a < 10, ∀ b < 10,
    Nat.digitChar a = Nat.digitChar b → a = b := by decide

theorem natDigitsM_injective : ∀ m n : Nat, natDigitsM m = natDigitsM n → m = n := by
  intro m
  induction m using Nat.strong_induction_on with
  | _ m ih =>
    intro n h
    by_cases hm : m < 10 <;> by_cases hn : n < 10
    · rw [natDigitsM_lt hm, natDigitsM_lt hn] at h
      exact digitChar_inj_lt10 m hm n hn (by injection h)
    · rw [natDigitsM_lt hm, natDigitsM_ge hn] at h
      have := congrArg List.length h
      simp at this
      exact absurd this (natDigitsM_ne_nil (n / 10))
    · rw [natDigitsM_ge hm, natDigitsM_lt hn] at h
      have := congrArg List.length h
      simp at this
      exact absurd this (natDigitsM_ne_nil (m / 10))
    · rw [natDigitsM_ge hm, natDigitsM_ge hn] at h
      obtain ⟨h1, h2⟩ := List.append_inj' h (by simp)
      have hq : m / 10 = n / 10 :=
        ih (m / 10) (Nat.div_lt_self (by omega) (by omega)) (n / 10) h1
      have hr : m % 10 = n % 10 :=
        digitChar_inj_lt10 (m % 10) (Nat.mod_lt m (by omega)) (n % 10)
          (Nat.mod_lt n (by omega)) (by injection h2)
      omega

theorem natRepr_injective {m n : Nat} (h : Nat.repr m = Nat.repr n) : m = n := by
  apply natDigitsM_injective
  have hd := congrArg String.data h
  simp only [Nat.repr, Nat.toDigits] at hd
  rw [toDigitsCore_eq_natDigitsM m (m + 1) [] (by omega),
    toDigitsCore_eq_natDigitsM n (n + 1) [] (by omega)] at hd
  simpa [List.asString] using hd

theorem candidate_inj {stem sfx : String} {i j : Nat}
    (h : candidate stem sfx i = candidate stem sfx j) : i = j := by
  apply natRepr_injective
  have hd := congrArg String.data h
  simp only [candidate, String.data_append, List.append_assoc] at hd
  have h1 := List.append_cancel_left hd
  have h2 := List.append_cancel_left h1
  rw [← List.append_assoc, ← List.append_assoc] at h2
  have h3 := List.append_cancel_right h2
  have h4 := List.append_cancel_right h3
  exact String.ext h4

theorem findAvail_none_mem (listing : List String) (stem sfx : String) :
    ∀ (fuel c : Nat), findAvail listing stem sfx c fuel = none →
      ∀ k < fuel, candidate stem sfx (c + k) ∈ listing := by
  intro fuel
  induction fuel with
  | zero =>
    intro c _ k hk
    omega
  | succ f ihf =>
    intro c h k hk
    rw [findAvail] at h
    by_cases hmem : candidate stem sfx c ∈ listing
    · rw [if_pos hmem] at h
      match k with
      | 0 => simpa using hmem
      | k' + 1 =>
        have := ihf (c + 1) h k' (by omega)
        have harith : c + 1 + k' = c + (k' + 1) := by omega
        rwa [harith] at this
    · rw [if_neg hmem] at h
      exact absurd h (by simp)

theorem findAvail_some_spec (listing : List String) (stem sfx : String) :
    ∀ (fuel c : Nat) (r : String), findAvail listing stem sfx c fuel = some r →
      ∃ k, c ≤ k ∧ r = candidate stem sfx k ∧ candidate stem sfx k ∉ listing ∧
        ∀ j, c ≤ j → j < k → candidate stem sfx j ∈ listing := by
  intro fuel
  induction fuel with
  | zero =>
    intro c r h
    exact absurd h (by simp [findAvail])
  | succ f ihf =>
    intro c r h
    rw [findAvail] at h
    by_cases hmem : candidate stem sfx c ∈ listing
    · rw [if_pos hmem] at h
      obtain ⟨k, hk1, hk2, hk3, hk4⟩ := ihf (c + 1) r h
      refine ⟨k, by omega, hk2, hk3, fun j hj1 hj2 => ?_⟩
      by_cases hjc : j = c
      · rwa [hjc]
      · exact hk4 j (by omega) hj2
    · rw [if_neg hmem] at h
      refine ⟨c, le_refl c, ?_, hmem, fun j hj1 hj2 => by omega⟩
      have := Option.some.inj h
      exact this.symm

theorem get_available_name_total (listing : List String) (name : String) :
    ∃ r, get_available_name listing name = some r := by
  unfold get_available_name
  by_cases h : name ∈ listing
  · rw [if_pos h]
    cases hr : findAvail listing (pyStem name) (pySuffix name) 1 (listing.length + 1) with
    | some r => exact ⟨r, rfl⟩
    | none =>
      exfalso
      have hmem := findAvail_none_mem listing (pyStem name) (pySuffix name)
        (listing.length + 1) 1 hr
      set L := (List.range (listing.length + 1)).map
        (fun k => candidate (pyStem name) (pySuffix name) (1 + k)) with hL
      have hnd : L.Nodup := by
        refine List.Nodup.map ?_ (List.nodup_range _)
        intro a b hab
        have := candidate_inj hab
        omega
      have hsub : ∀ x ∈ L, x ∈ listing := by
        intro x hx
        rw [hL, List.mem_map] at hx
        obtain ⟨k, hk, rfl⟩ := hx
        rw [List.mem_range] at hk
        exact hmem k hk
      have h1 : L.toFinset.card = L.length := List.toFinset_card_of_nodup hnd
      have h2 : L.toFinset ⊆ listing.toFinset := by
        intro x hx
        rw [List.mem_toFinset] at hx ⊢
        exact hsub x hx
      have h3 := Finset.card_le_card h2
      have h4 := List.toFinset_card_le (l := listing)
      have h5 : L.length = listing.length + 1 := by
        rw [hL, List.length_map, List.length_range]
      omega
  · rw [if_neg h]
    exact ⟨name, rfl⟩

/-- C8: name resolution terminates for every input: with the finite listing
of existing names fixed at call time, the counter loop finds a candidate
that does not exist after at most one more step than the listing's length,
because distinct counters give distinct candidate names. -/
theorem nameResolutionTerminates (listing : List String) (name : String) :
    (get_available_name listing name).isSome = true := by
  obtain ⟨r, hr⟩ := get_available_name_total listing name
  rw [hr]
  rfl

/-- C4: when the desired name is free it is returned unchanged; otherwise
the result is the candidate built from the stem, the counter in parentheses
and the suffix, for the least counter from 1 on whose candidate does not
exist in the destination directory. -/
theorem nameResolutionLeastCounter (listing : List String) (name : String) :
    (name ∉ listing → get_available_name listing name = some name) ∧
    (name ∈ listing → ∃ k, 1 ≤ k ∧
      get_available_name listing name =
        some (candidate (pyStem name) (pySuffix name) k) ∧
      candidate (pyStem name) (pySuffix name) k ∉ listing ∧
      ∀ j, 1 ≤ j → j < k → candidate (pyStem name) (pySuffix name) j ∈ listing) := by
  constructor
  · intro h
    unfold get_available_name
    rw [if_neg h]
  · intro h
    obtain ⟨r, hr⟩ := get_available_name_total listing name
    have hr' : findAvail listing (pyStem name) (pySuffix name) 1 (listing.length + 1) =
        some r := by
      unfold get_available_name at hr
      rwa [if_pos h] at hr
    obtain ⟨k, hk1, hk2, hk3, hk4⟩ := findAvail_some_spec listing (pyStem name)
      (pySuffix name) (listing.length + 1) 1 r hr'
    refine ⟨k, hk1, ?_, hk3, hk4⟩
    rw [hr, hk2]

/-- Concrete instances of C4: a free destination passes through unchanged,
and with photo.png and photo (1).png present the next photo.png resolves
with counter 2. -/
theorem nameResolutionLeastCounterWitness :
    get_available_name ["photo.png"] "new.png" = some "new.png" ∧
    get_available_name ["photo.png", "photo (1).png"] "photo.png" =
      some "photo (2).png" := by
  refine ⟨(nameResolutionLeastCounter ["photo.png"] "new.png").1 (by decide), ?_⟩
  have h2 := (nameResolutionLeastCounter ["photo.png", "photo (1).png"] "photo.png").2
    (by decide)
  obtain ⟨k, hk1, hk2, hk3, hk4⟩ := h2
  have hk : k = 2 := by
    rcases Nat.lt_trichotomy k 2 with hlt | heq | hgt
    · have hone : k = 1 := by omega
      rw [hone] at hk3
      exact absurd (by decide) hk3
    · exact heq
    · exact absurd (hk4 2 (by omega) hgt) (by decide)
  rw [hk2, hk]
  decide

/-- C3: for every extension string, classification checks the categories in
the fixed order Archives, Documents, Graphics, Programs; the first category
whose extension set contains the extension wins, and when none matches the
result is the fallback Others — stated as agreement with the chain written
from the spec's words, whenever the four consulted keys are present. -/
theorem classifyPriorityOrder (cats : List (String × List String))
    (ar docs gr pr : List String)
    (hA : lookupCat cats "Archives" = some ar)
    (hD : lookupCat cats "Documents" = some docs)
    (hG : lookupCat cats "Graphics" = some gr)
    (hP : lookupCat cats "Programs" = some pr) (ext : String) :
    classify cats ext = Except.ok (classifySpec ar docs gr pr ext) := by
  unfold classify classifySpec
  rw [hA, hD, hG, hP]
  by_cases h1 : ext ∈ ar <;> by_cases h2 : ext ∈ docs <;>
    by_cases h3 : ext ∈ gr <;> by_cases h4 : ext ∈ pr <;>
    simp [h1, h2, h3, h4]

/-- Concrete instances of C3 on the default category table. -/
theorem classifyPriorityOrderWitness :
    classify create_default_config.file_categories ".zip" = Except.ok "Archives" ∧
    classify create_default_config.file_categories ".xyz" = Except.ok "Others" := by
  constructor
  · exact (classifyPriorityOrder create_default_config.file_categories
      archivesExts documentsExts graphicsExts programsExts
      (by decide) (by decide) (by decide) (by decide) ".zip").trans (by decide)
  · exact (classifyPriorityOrder create_default_config.file_categories
      archivesExts documentsExts graphicsExts programsExts
      (by decide) (by decide) (by decide) (by decide) ".xyz").trans (by decide)

/-- C7: the loop lowercases a file's extension before the category lookup,
so two extensions with the same lowercase form classify identically. -/
theorem classifyCaseInsensitive (cats : List (String × List String)) (s t : String)
    (h : pyLower s = pyLower t) : classifyFile cats s = classifyFile cats t := by
  unfold classifyFile
  rw [h]

/-- Concrete instance of C7: .JPG and .jpg resolve to the same category,
namely Graphics. -/
theorem classifyCaseInsensitiveWitness :
    classifyFile create_default_config.file_categories ".JPG" =
      classifyFile create_default_config.file_categories ".jpg" ∧
    classifyFile create_default_config.file_categories ".JPG" =
      Except.ok "Graphics" :=
  ⟨classifyCaseInsensitive create_default_config.file_categories ".JPG" ".jpg"
    (by decide), by decide⟩

theorem processFile_error {cats : List (String × List String)} {dry : Bool}
    {moveFails : List String} {st : AppState} {item k : String}
    (hc : classifyFile cats (pySuffix item) = Except.error k) :
    processFile cats dry moveFails st item = Except.error k := by
  unfold processFile
  rw [hc]
  rfl

theorem processFile_ok_spec {cats : List (String × List String)} (dry : Bool)
    (moveFails : List String) (st : AppState) {item c : String}
    (hc : classifyFile cats (pySuffix item) = Except.ok c) :
    ∃ st1 e, processFile cats dry moveFails st item = Except.ok (st1, [e]) ∧
      eventItem e = some item ∧
      st1.dirs = st.dirs ∧ st1.configFile = st.configFile ∧
      st1.backupFile = st.backupFile ∧
      st1.downloadsDirExists = st.downloadsDirExists ∧
      (dry = true → st1 = st ∧ mutatingEvent e = false ∧
        ∀ i t fn, e = LogEvent.dryMoveAs i t fn → fn ≠ i) ∧
      (dry = false → item ∈ moveFails → e = LogEvent.moveError item) := by
  unfold processFile
  rw [hc]
  simp only [Except.map]
  cases dry with
  | true =>
    by_cases hfn : (get_available_name
        (if c ∈ st.dirs then dirListing st c else []) item).getD item = item
    · refine ⟨st, LogEvent.dryMove item c, ?_, rfl, rfl, rfl, rfl, rfl, ?_, ?_⟩
      · simp [hfn]
      · intro _
        refine ⟨rfl, rfl, ?_⟩
        intro i t fn he
        exact absurd he (by simp [eventItem, LogEvent.dryMove])
      · intro h
        exact absurd h (by simp)
    · refine ⟨st, LogEvent.dryMoveAs item c ((get_available_name
        (if c ∈ st.dirs then dirListing st c else []) item).getD item),
        ?_, rfl, rfl, rfl, rfl, rfl, ?_, ?_⟩
      · simp [hfn]
      · intro _
        refine ⟨rfl, rfl, ?_⟩
        intro i t fn he
        rw [LogEvent.dryMoveAs.injEq] at he
        obtain ⟨h1, _, h3⟩ := he
        rw [← h3, ← h1]
        exact hfn
      · intro h
        exact absurd h (by simp)
  | false =>
    by_cases hfail : item ∈ moveFails ∨ c ∉ st.dirs
    · refine ⟨st, LogEvent.moveError item, ?_, rfl, rfl, rfl, rfl, rfl, ?_, ?_⟩
      · simp [hfail]
      · intro h
        exact absurd h (by simp)
      · intro _ _
        rfl
    · by_cases hfn : (get_available_name
          (if c ∈ st.dirs then dirListing st c else []) item).getD item = item
      · refine ⟨{ st with
            files := st.files.erase item
            subfiles := st.subfiles ++ [(c, (get_available_name
              (if c ∈ st.dirs then dirListing st c else []) item).getD item)] },
          LogEvent.moved item c, ?_, rfl, rfl, rfl, rfl, rfl, ?_, ?_⟩
        · simp [hfail, hfn]
        · intro h
          exact absurd h (by simp)
        · intro _ hmem
          exact absurd (Or.inl hmem) hfail
      · refine ⟨{ st with
            files := st.files.erase item
            subfiles := st.subfiles ++ [(c, (get_available_name
              (if c ∈ st.dirs then dirListing st c else []) item).getD item)] },
          LogEvent.movedRenamed item c ((get_available_name
            (if c ∈ st.dirs then dirListing st c else []) item).getD item),
            ?_, rfl, rfl, rfl, rfl, rfl, ?_, ?_⟩
        · simp [hfail, hfn]
        · intro h
          exact absurd h (by simp)
        · intro _ hmem
          exact absurd (Or.inl hmem) hfail

theorem processFile_ok_fields {cats : List (String × List String)} {dry : Bool}
    {moveFails : List String} {st st1 : AppState} {item : String}
    {evs : List LogEvent}
    (hp : processFile cats dry moveFails st item = Except.ok (st1, evs)) :
    (∃ e, evs = [e] ∧ eventItem e = some item) ∧
    st1.dirs = st.dirs ∧ st1.configFile = st.configFile ∧
    st1.backupFile = st.backupFile ∧
    st1.downloadsDirExists = st.downloadsDirExists ∧
    (dry = true → st1 = st ∧ ∀ e ∈ evs, mutatingEvent e = false ∧
      ∀ i t fn, e = LogEvent.dryMoveAs i t fn → fn ≠ i) := by
  cases hc : classifyFile cats (pySuffix item) with
  | error k =>
    rw [processFile_error hc] at hp
    exact absurd hp (by simp)
  | ok c =>
    obtain ⟨st1', e, heq, hev, h1, h2, h3, h4, hdry, hmf⟩ :=
      processFile_ok_spec dry moveFails st hc
    rw [heq] at hp
    rw [Except.ok.injEq, Prod.mk.injEq] at hp
    obtain ⟨hst, hevs⟩ := hp
    subst hst
    subst hevs
    refine ⟨⟨e, rfl, hev⟩, h1, h2, h3, h4, ?_⟩
    intro hd
    obtain ⟨hd1, hd2, hd3⟩ := hdry hd
    refine ⟨hd1, ?_⟩
    intro e' he'
    rw [List.mem_singleton] at he'
    subst he'
    exact ⟨hd2, hd3⟩

theorem runFiles_fields (cats : List (String × List String)) (dry : Bool)
    (moveFails : List String) : ∀ (files : List String) (st : AppState),
    (runFiles cats dry moveFails st files).1.dirs = st.dirs ∧
    (runFiles cats dry moveFails st files).1.configFile = st.configFile ∧
    (runFiles cats dry moveFails st files).1.backupFile = st.backupFile ∧
    (runFiles cats dry moveFails st files).1.downloadsDirExists =
      st.downloadsDirExists ∧
    (∀ e ∈ (runFiles cats dry moveFails st files).2.1, eventItem e ≠ none) ∧
    (dry = true → (runFiles cats dry moveFails st files).1 = st ∧
      ∀ e ∈ (runFiles cats dry moveFails st files).2.1,
        mutatingEvent e = false ∧
        ∀ i t fn, e = LogEvent.dryMoveAs i t fn → fn ≠ i) := by
  intro files
  induction files with
  | nil =>
    intro st
    refine ⟨rfl, rfl, rfl, rfl, by simp [runFiles], ?_⟩
    intro _
    exact ⟨rfl, by simp [runFiles]⟩
  | cons f rest ih =>
    intro st
    rw [runFiles]
    cases hp : processFile cats dry moveFails st f with
    | error k =>
      refine ⟨rfl, rfl, rfl, rfl, by simp, ?_⟩
      intro _
      exact ⟨rfl, by simp⟩
    | ok pr =>
      obtain ⟨st1, evs⟩ := pr
      obtain ⟨⟨e, hevs, hev⟩, h1, h2, h3, h4, hdry⟩ := processFile_ok_fields hp
      obtain ⟨i1, i2, i3, i4, i5, i6⟩ := ih st1
      refine ⟨by rw [i1, h1], by rw [i2, h2], by rw [i3, h3], by rw [i4, h4], ?_, ?_⟩
      · intro e' he'
        rw [List.mem_append] at he'
        cases he' with
        | inl hl =>
          rw [hevs, List.mem_singleton] at hl
          subst hl
          rw [hev]
          simp
        | inr hr => exact i5 e' hr
      · intro hd
        obtain ⟨hd1, hd2⟩ := hdry hd
        obtain ⟨j1, j2⟩ := i6 hd
        subst hd1
        refine ⟨j1, ?_⟩
        intro e' he'
        rw [List.mem_append] at he'
        cases he' with
        | inl hl => exact hd2 e' hl
        | inr hr => exact j2 e' hr

theorem runFiles_covers (cats : List (String × List String))
    (moveFails : List String) : ∀ (files : List String) (st : AppState),
    (∀ f ∈ files, (classifyFile cats (pySuffix f)).isOk = true) →
    (runFiles cats false moveFails st files).2.2 = none ∧
    (∀ f ∈ files, ∃ e ∈ (runFiles cats false moveFails st files).2.1,
      eventItem e = some f) ∧
    (∀ f ∈ files, f ∈ moveFails →
      LogEvent.moveError f ∈ (runFiles cats false moveFails st files).2.1) := by
  intro files
  induction files with
  | nil =>
    intro st _
    exact ⟨rfl, by simp, by simp⟩
  | cons f rest ih =>
    intro st h
    have hcs := h f (by simp)
    have hc : ∃ c, classifyFile cats (pySuffix f) = Except.ok c := by
      cases hcf : classifyFile cats (pySuffix f) with
      | error k =>
        rw [hcf] at hcs
        exact absurd hcs (by simp [Except.isOk, Except.toBool])
      | ok c => exact ⟨c, rfl⟩
    obtain ⟨c, hc⟩ := hc
    obtain ⟨st1, e, heq, hev, _, _, _, _, _, hmf⟩ :=
      processFile_ok_spec false moveFails st hc
    rw [runFiles, heq]
    obtain ⟨ih1, ih2, ih3⟩ := ih st1 (fun g hg => h g (by simp [hg]))
    refine ⟨ih1, ?_, ?_⟩
    · intro g hg
      rw [List.mem_cons] at hg
      cases hg with
      | inl hl =>
        subst hl
        exact ⟨e, by simp, hev⟩
      | inr hr =>
        obtain ⟨e', he', hev'⟩ := ih2 g hr
        exact ⟨e', by simp [he'], hev'⟩
    · intro g hg hgm
      rw [List.mem_cons] at hg
      cases hg with
      | inl hl =>
        subst hl
        rw [hmf rfl hgm]
        simp
      | inr hr =>
        have := ih3 g hr hgm
        simp [this]

theorem load_config_isSome (st : AppState) (backupFails : Bool) :
    (load_config st backupFails).1.isSome = true := by
  cases hc : st.configFile with
  | none => simp [load_config, hc]
  | some content =>
    cases content <;> simp [load_config, hc, loadCorruptBranch]

theorem load_config_events (st : AppState) (backupFails : Bool) :
    ∀ e ∈ (load_config st backupFails).2.2,
      e = LogEvent.noConfigFound ∨ e = LogEvent.configCorrupted ∨
      e = LogEvent.backupSaved ∨ e = LogEvent.backupFailed ∨
      e = LogEvent.unexpectedLoadError := by
  cases hc : st.configFile with
  | none => simp [load_config, hc]
  | some content =>
    cases content <;> cases backupFails <;>
      simp [load_config, hc, loadCorruptBranch]

theorem load_config_no_repair (st : AppState) (backupFails : Bool)
    (h1 : st.configFile ≠ some ConfigFileContent.corrupt)
    (h2 : st.configFile ≠ some ConfigFileContent.truncated) :
    (load_config st backupFails).2.1 = st ∧
    ∀ e ∈ (load_config st backupFails).2.2, mutatingEvent e = false := by
  cases hc : st.configFile with
  | none => simp [load_config, hc, mutatingEvent]
  | some content =>
    cases content with
    | valid c => simp [load_config, hc]
    | corrupt => exact absurd hc h1
    | truncated => exact absurd hc h2

theorem addDirs_sub : ∀ (names dirs : List String) (d : String),
    d ∈ dirs → d ∈ addDirs dirs names := by
  intro names
  induction names with
  | nil =>
    intro dirs d h
    simpa [addDirs] using h
  | cons m rest ih =>
    intro dirs d h
    show d ∈ addDirs (if m ∈ dirs then dirs else dirs ++ [m]) rest
    apply ih
    by_cases hm : m ∈ dirs
    · simpa [hm] using h
    · simp [hm, h]

theorem addDirs_mem : ∀ (names dirs : List String) (n : String),
    n ∈ names → n ∈ addDirs dirs names := by
  intro names
  induction names with
  | nil =>
    intro dirs n h
    exact absurd h (by simp)
  | cons m rest ih =>
    intro dirs n h
    rw [List.mem_cons] at h
    show n ∈ addDirs (if m ∈ dirs then dirs else dirs ++ [m]) rest
    cases h with
    | inl hl =>
      subst hl
      apply addDirs_sub
      by_cases hm : n ∈ dirs <;> simp [hm]
    | inr hr => exact ih _ n hr

theorem firstRun_dry (st : AppState) (config : RunConfig) :
    (firstRun st config true).1 = st ∧
    ∀ e ∈ (firstRun st config true).2.2, mutatingEvent e = false ∧
      ∀ i t fn, e ≠ LogEvent.dryMoveAs i t fn := by
  refine ⟨by simp [firstRun], ?_⟩
  intro e he
  simp [firstRun] at he
  rcases he with rfl | ⟨n, _, rfl⟩ | rfl <;> simp [mutatingEvent]

theorem firstRun_nondry (st : AppState) (config : RunConfig) :
    (firstRun st config false).1.dirs =
      addDirs st.dirs (config.file_categories.map (fun p => p.1)) ∧
    (firstRun st config false).1.files = st.files ∧
    (firstRun st config false).2.1.file_categories = config.file_categories := by
  simp [firstRun]

theorem firstRun_events (st : AppState) (config : RunConfig) (dry : Bool) :
    ∀ e ∈ (firstRun st config dry).2.2,
      e = LogEvent.firstRunDetected ∨
      (∃ n, e = LogEvent.dryWouldCreateFolder n) ∨
      (∃ n, e = LogEvent.createdFolder n) ∨
      e = LogEvent.configSavedInitialized ∨
      e = LogEvent.dryWouldSetInitialized := by
  intro e he
  cases dry with
  | true =>
    simp [firstRun] at he
    rcases he with rfl | ⟨n, _, rfl⟩ | rfl
    · simp
    · simp
    · simp
  | false =>
    simp [firstRun] at he
    rcases he with rfl | ⟨n, _, rfl⟩ | rfl
    · simp
    · simp
    · simp

/-- C9: `load_config` always returns a configuration — every failure path is
caught and yields the in-memory default — so the sorter's abort branch
guarded by `config is None` is unreachable and its log line is never
emitted. -/
theorem loadNeverNone (st : AppState) (backupFails : Bool)
    (moveFails : List String) (dry : Bool) :
    (load_config st backupFails).1.isSome = true ∧
    LogEvent.exitCouldNotLoad ∉ (sorter st backupFails moveFails dry).2.1 := by
  refine ⟨load_config_isSome st backupFails, ?_⟩
  intro hmem
  obtain ⟨config, hl⟩ := Option.isSome_iff_exists.mp (load_config_isSome st backupFails)
  simp only [sorter, hl] at hmem
  by_cases hd : (load_config st backupFails).2.1.downloadsDirExists = false
  · rw [if_pos hd] at hmem
    rw [List.mem_append] at hmem
    cases hmem with
    | inl h =>
      rcases load_config_events st backupFails _ h with h | h | h | h | h <;> simp at h
    | inr h => simp at h
  · rw [if_neg hd] at hmem
    by_cases hi : config.initialized = false
    · rw [if_pos hi] at hmem
      rw [List.mem_append] at hmem
      cases hmem with
      | inl hL =>
        rw [List.mem_append] at hL
        cases hL with
        | inl h =>
          rcases load_config_events st backupFails _ h with h | h | h | h | h <;> simp at h
        | inr h =>
          rcases firstRun_events _ _ _ _ h with h | ⟨n, h⟩ | ⟨n, h⟩ | h | h <;> simp at h
      | inr h =>
        exact (runFiles_fields _ _ _ _ _).2.2.2.2.1 _ h rfl
    · rw [if_neg hi] at hmem
      rw [List.mem_append] at hmem
      cases hmem with
      | inl hL =>
        rw [List.mem_append] at hL
        cases hL with
        | inl h =>
          rcases load_config_events st backupFails _ h with h | h | h | h | h <;> simp at h
        | inr h => simp at h
      | inr h =>
        exact (runFiles_fields _ _ _ _ _).2.2.2.2.1 _ h rfl

/-- C5 amended: provided configuration loading does not take the
corrupted-file repair path (which writes a backup and rewrites the config
file even under dry run), a dry run leaves the filesystem and the persisted
configuration untouched, emits no mutating event, and every logged
move-with-rename names a resolved name that really differs from the
original. -/
theorem dryRunNoMutationOutsideRepair (st : AppState) (backupFails : Bool)
    (moveFails : List String)
    (h1 : st.configFile ≠ some ConfigFileContent.corrupt)
    (h2 : st.configFile ≠ some ConfigFileContent.truncated) :
    (sorter st backupFails moveFails true).1 = st ∧
    (∀ e ∈ (sorter st backupFails moveFails true).2.1, mutatingEvent e = false) ∧
    (∀ i t fn, LogEvent.dryMoveAs i t fn ∈ (sorter st backupFails moveFails true).2.1 →
      fn ≠ i) := by
  obtain ⟨config, hl⟩ := Option.isSome_iff_exists.mp (load_config_isSome st backupFails)
  obtain ⟨hst, hlev⟩ := load_config_no_repair st backupFails h1 h2
  simp only [sorter, hl, hst]
  by_cases hd : st.downloadsDirExists = false
  · rw [if_pos hd]
    refine ⟨rfl, ?_, ?_⟩
    · intro e he
      rw [List.mem_append] at he
      cases he with
      | inl h => exact hlev e h
      | inr h =>
        rw [List.mem_singleton] at h
        subst h
        rfl
    · intro i t fn hmem
      rw [List.mem_append] at hmem
      cases hmem with
      | inl h =>
        rcases load_config_events st backupFails _ h with h | h | h | h | h <;> simp at h
      | inr h => simp at h
  · rw [if_neg hd]
    by_cases hi : config.initialized = false
    · rw [if_pos hi]
      obtain ⟨hf1, hf2⟩ := firstRun_dry st config
      rw [hf1]
      obtain ⟨r1, _, _, _, _, r6⟩ := runFiles_fields
        (firstRun st config true).2.1.file_categories true moveFails st.files st
      obtain ⟨rs, rev⟩ := r6 rfl
      refine ⟨rs, ?_, ?_⟩
      · intro e he
        rw [List.mem_append] at he
        cases he with
        | inl hL =>
          rw [List.mem_append] at hL
          cases hL with
          | inl h => exact hlev e h
          | inr h => exact ((firstRun_dry st config).2 e h).1
        | inr h => exact (rev e h).1
      · intro i t fn hmem
        rw [List.mem_append] at hmem
        cases hmem with
        | inl hL =>
          rw [List.mem_append] at hL
          cases hL with
          | inl h =>
            rcases load_config_events st backupFails _ h with h | h | h | h | h <;>
              simp at h
          | inr h =>
            exact absurd rfl (((firstRun_dry st config).2 _ h).2 i t fn)
        | inr h => exact (rev _ h).2 i t fn rfl
    · rw [if_neg hi]
      obtain ⟨r1, _, _, _, _, r6⟩ := runFiles_fields
        config.file_categories true moveFails st.files st
      obtain ⟨rs, rev⟩ := r6 rfl
      refine ⟨rs, ?_, ?_⟩
      · intro e he
        rw [List.mem_append] at he
        cases he with
        | inl hL =>
          rw [List.mem_append] at hL
          cases hL with
          | inl h => exact hlev e h
          | inr h => simp at h
        | inr h => exact (rev e h).1
      · intro i t fn hmem
        rw [List.mem_append] at hmem
        cases hmem with
        | inl hL =>
          rw [List.mem_append] at hL
          cases hL with
          | inl h =>
            rcases load_config_events st backupFails _ h with h | h | h | h | h <;>
              simp at h
          | inr h => simp at h
        | inr h => exact (rev _ h).2 i t fn rfl

/-- Concrete C5 instance: a dry run over a valid, not yet initialized
configuration with pending files changes nothing on disk. -/
theorem dryRunNoMutationWitness : (sorter stExtra false [] true).1 = stExtra :=
  (dryRunNoMutationOutsideRepair stExtra false [] (by decide) (by decide)).1

/-- C5 counterexample: with a corrupted config file on disk, a dry run still
mutates the filesystem — loading writes a backup file and rewrites the
config file before the engine's dry-run logic is ever reached. -/
theorem dryRunMutatesOnCorruptConfig :
    (sorter stCorrupt false [] true).1 ≠ stCorrupt ∧
    (sorter stCorrupt false [] true).1.backupFile = some ConfigFileContent.corrupt ∧
    stCorrupt.backupFile = none := by decide

/-- C6: during a non-dry pass in which every entry classifies successfully,
the iteration never aborts — it reaches every file, logging one outcome per
file, and a file whose move fails gets its error logged while later files
are still processed. -/
theorem moveFailureDoesNotAbort (cats : List (String × List String))
    (moveFails : List String) (files : List String) (st : AppState)
    (h : ∀ f ∈ files, (classifyFile cats (pySuffix f)).isOk = true) :
    (runFiles cats false moveFails st files).2.2 = none ∧
    (∀ f ∈ files, ∃ e ∈ (runFiles cats false moveFails st files).2.1,
      eventItem e = some f) ∧
    (∀ f ∈ files, f ∈ moveFails →
      LogEvent.moveError f ∈ (runFiles cats false moveFails st files).2.1) :=
  runFiles_covers cats moveFails files st h

/-- Concrete C6 instance: with the move of a.zip failing, its error is
logged and b.pdf is still processed. -/
theorem moveFailureDoesNotAbortWitness :
    LogEvent.moveError "a.zip" ∈ (runFiles create_default_config.file_categories
      false ["a.zip"] stDirs ["a.zip", "b.pdf"]).2.1 :=
  (moveFailureDoesNotAbort create_default_config.file_categories ["a.zip"]
    ["a.zip", "b.pdf"] stDirs (by decide)).2.2 "a.zip" (by decide) (by decide)

theorem sorter_valid_uninit (st : AppState) (stored : StoredConfig)
    (backupFails : Bool) (moveFails : List String)
    (hcf : st.configFile = some (ConfigFileContent.valid stored))
    (hinit : stored.initialized = false)
    (hdir : st.downloadsDirExists = true) :
    (sorter st backupFails moveFails false).1.dirs =
      addDirs st.dirs (stored.file_categories.map (fun p => p.1)) := by
  have hld : load_config st backupFails = (some
      { initialized := stored.initialized
        downloads_path := expanduser stored.downloads_path
        file_categories := stored.file_categories }, st, []) := by
    simp [load_config, hcf]
  simp only [sorter, hld]
  rw [if_neg (by simp [hdir]), if_pos (by simp [hinit])]
  rw [(runFiles_fields _ _ _ _ _).1, (firstRun_nondry _ _).1]

/-- C10 amended: a successful classification always lands on one of the
five literal names Archives, Documents, Graphics, Programs, Others; a
lookup error can only name one of the four consulted keys Archives,
Documents, Graphics, Programs and only when that key is absent (the Others
key is never looked up, so its absence raises nothing); a missing Archives
key errors immediately; and first-run initialization creates a folder for
every configured category name, extra names included, into which no file is
ever classified. -/
theorem classifyConsultsLiteralKeys :
    (∀ cats ext c, classify cats ext = Except.ok c →
      c ∈ ["Archives", "Documents", "Graphics", "Programs", "Others"]) ∧
    (∀ cats ext k, classify cats ext = Except.error k →
      k ∈ ["Archives", "Documents", "Graphics", "Programs"] ∧
        lookupCat cats k = none) ∧
    (∀ cats ext, lookupCat cats "Archives" = none →
      classify cats ext = Except.error "Archives") ∧
    (∀ st stored backupFails moveFails,
      st.configFile = some (ConfigFileContent.valid stored) →
      stored.initialized = false → st.downloadsDirExists = true →
      ∀ k ∈ stored.file_categories.map (fun p => p.1),
        k ∈ (sorter st backupFails moveFails false).1.dirs) := by
  refine ⟨?_, ?_, ?_, ?_⟩
  · intro cats ext c h
    unfold classify at h
    repeat' split at h
    all_goals simp_all
  · intro cats ext k h
    unfold classify at h
    repeat' split at h
    all_goals simp_all
  · intro cats ext h
    unfold classify
    rw [h]
  · intro st stored backupFails moveFails hcf hinit hdir k hk
    rw [sorter_valid_uninit st stored backupFails moveFails hcf hinit hdir]
    exact addDirs_mem _ _ _ hk

/-- C10 counterexample: with the Others key absent from the category table,
classifying an unmatched extension raises no lookup error — it still
succeeds with the fallback name Others, because Others is never looked
up. -/
theorem missingOthersKeyNoError :
    lookupCat catsNoOthers "Others" = none ∧
    classify catsNoOthers ".xyz" = Except.ok "Others" := by decide

/-- Concrete C10 instances: an extra category gets its folder on first run,
a missing Archives key raises at classification, and a fallback result is
one of the five fixed names. -/
theorem classifyConsultsLiteralKeysWitness :
    "Music" ∈ (sorter stExtra false [] false).1.dirs ∧
    classify catsNoArchives ".txt" = Except.error "Archives" ∧
    "Others" ∈ ["Archives", "Documents", "Graphics", "Programs", "Others"] := by
  refine ⟨?_, ?_, ?_⟩
  · exact classifyConsultsLiteralKeys.2.2.2 stExtra storedExtra false [] rfl rfl rfl
      "Music" (by decide)
  · exact classifyConsultsLiteralKeys.2.2.1 catsNoArchives ".txt" (by decide)
  · exact classifyConsultsLiteralKeys.1 catsNoOthers ".xyz" "Others" (by decide)

/-- C1 at its failing input: on a fresh installation — no config file on
disk, the downloads directory present and empty — a non-dry run leaves the
filesystem completely unchanged: no category folder is created, nothing is
persisted, and the first-run branch never fires, because
`create_default_config` already carries `initialized = True`. -/
theorem freshRunCreatesNoFolders :
    (sorter stFresh false [] false).1 = stFresh ∧
    (sorter stFresh false [] false).1.dirs = [] ∧
    (sorter stFresh false [] false).1.configFile = none ∧
    LogEvent.firstRunDetected ∉ (sorter stFresh false [] false).2.1 := by decide

/-- C2 at its failing input: loading a corrupted config file does back up
the original bytes and does return the in-memory default, but the promised
durable repair never happens — `json.dump` on a dict holding a `Path`
raises `TypeError` after the file was truncated, so the config file is left
with an invalid prefix instead of a fresh default, the success log line is
never emitted, and the error surfaces in the catch-all handler instead. -/
theorem corruptRepairNotDurable :
    (load_config stCorrupt false).1 = some defaultRunConfig ∧
    (load_config stCorrupt false).2.1.backupFile = some ConfigFileContent.corrupt ∧
    (load_config stCorrupt false).2.1.configFile = some ConfigFileContent.truncated ∧
    LogEvent.newDefaultConfigCreated ∉ (load_config stCorrupt false).2.2 ∧
    LogEvent.unexpectedLoadError ∈ (load_config stCorrupt false).2.2 := by decide

end TidyBot
